import Mathlib

/-!
Shallow embedding of the core of `yggdrasil-keys-rs` (files `src/helper.rs` and
`src/keys.rs`), together with theorems settling the specification claims.

Modelling conventions:
* Rust `u8` values are `Nat` below 256; truncation is written `% 256` where the
  source relies on the 8-bit width.
* A fatal condition (panic, `usize` underflow, out-of-range slice index,
  shift-amount overflow, failed `assert!`) is modelled by `Option.none`; an
  error value returned with `Result::Err` is modelled by `Except.error`.
* `GenericArray<u8, U64>` becomes a `List Nat` whose length is 64; theorems
  carry the length and byte-range side conditions explicitly.  The hard-coded
  scan bound `64` of `leading_ones` is kept as in the source.
* Hex encoding/decoding, SHA-512, and the two curve libraries are external
  collaborators of the crate (out of scope per the specification); functions
  taking decoded byte sequences are modelled on those sequences directly.
-/

namespace YggdrasilKeys

/-- `u8::leading_zeros`: number of leading zero bits of an 8-bit value,
written out over the eight bit positions. -/
def u8LeadingZeros (x : Nat) : Nat :=
  if 128 ≤ x then 0
  else if 64 ≤ x then 1
  else if 32 ≤ x then 2
  else if 16 ≤ x then 3
  else if 8 ≤ x then 4
  else if 4 ≤ x then 5
  else if 2 ≤ x then 6
  else if 1 ≤ x then 7
  else 8

/-- Rust `x << s` on `u8`: a shift amount of 8 or more is an arithmetic
overflow (a fatal condition, `none`); otherwise the result is truncated to
8 bits. -/
def shlU8 (x s : Nat) : Option Nat :=
  if s < 8 then some (x * 2 ^ s % 256) else none

/-- Rust `x >> s` on `u8`: a shift amount of 8 or more is an arithmetic
overflow (a fatal condition, `none`). -/
def shrU8 (x s : Nat) : Option Nat :=
  if s < 8 then some (x / 2 ^ s) else none

/-- `const INVERTER: u8 = 255u8` from `helper.rs`. -/
def INVERTER : Nat := 255

/-- The `while` loop of `helper.rs::leading_ones`, with `acc` the running
count.  The loop guard is `acc / 8 < 64`; the per-iteration array access
`sha512[acc / 8]` is modelled with `List.getElem?`, `none` marking an
out-of-bounds access.  The loop re-enters only when a byte contributed all
8 bits, so `acc` stays a multiple of 8 and the guard bounds the iteration
count by 64; the structural `fuel` argument is instantiated with 65 below
and can therefore never be exhausted. -/
def leadingOnesAux (sha512 : List Nat) : Nat → Nat → Option Nat
  | 0, _ => none
  | fuel + 1, acc =>
    if acc / 8 < 64 then
      match sha512[acc / 8]? with
      | none => none
      | some currentByte =>
        let invertedByte := currentByte ^^^ INVERTER
        let localLeadingOnes := u8LeadingZeros invertedByte
        if localLeadingOnes = 8 then
          leadingOnesAux sha512 fuel (acc + localLeadingOnes)
        else
          some (acc + localLeadingOnes)
    else
      some acc

/-- `helper.rs::leading_ones`: count the leading one bits of the 64-byte
input. -/
def leading_ones (sha512 : List Nat) : Option Nat :=
  leadingOnesAux sha512 65 0

/-- Sequential `Option`-valued map, modelling a Rust `for` loop that pushes
one result per iteration and can hit a fatal condition. -/
def mapOption (f : Nat → Option Nat) : List Nat → Option (List Nat)
  | [] => some []
  | a :: t => do
    let b ← f a
    let r ← mapOption f t
    pure (b :: r)

/-- `helper.rs::strip_ones`: count the leading ones, strip them plus the
following zero bit, return the count and the re-aligned remainder.
`slice.len() - 2` is a `usize` subtraction, so `slice.len() < 2` is a fatal
condition; the body indexes `slice[i]` and `slice[i + 1]` and shifts `u8`
values by `shift` and `8 - shift`. -/
def strip_ones (sha512 : List Nat) : Option (Nat × List Nat) := do
  let ones ← leading_ones sha512
  let shift := ones % 8 + 1
  let slice := sha512.drop (ones / 8)
  if slice.length < 2 then
    none
  else do
    let vec ← mapOption (fun i =>
      match slice[i]?, slice[i + 1]? with
      | some l, some r => do
        let lhs ← shlU8 l shift
        let rhs ← shrU8 r (8 - shift)
        pure (lhs ||| rhs)
      | _, _ => none) (List.range (slice.length - 2))
    match slice[slice.length - 1]? with
    | some last => do
      let lastShifted ← shlU8 last shift
      pure (ones, vec ++ [lastShifted])
    | none => none

/-- The error type of `error.rs::FromHexError`; the payloads of the `Hex`
and `InvalidSigKey` variants live in external crates and are not modelled. -/
inductive FromHexError
  | WrongKeyLength
  | Hex
  | ConflictingPubKeys
  | InvalidSigKey
deriving DecidableEq, Repr

/-- `helper.rs::hex_pair_to_bytes`, modelled on the decoded byte sequences
(the `hex::decode` collaborator is external): `secBytes` is the decode of the
secret hex string, `publicBytes` the optional decode of the public hex
string.  The source takes `&hex::decode(pub_hex)?[0..32]` in the 64-byte
branch, which is a fatal out-of-range slice when fewer than 32 bytes were
decoded. -/
def hex_pair_to_bytes (secBytes : List Nat) (publicBytes : Option (List Nat)) :
    Option (Except FromHexError (List Nat × Option (List Nat))) :=
  if secBytes.length = 64 then
    let pubEmbedded := secBytes.drop 32
    let sec := secBytes.take 32
    match publicBytes with
    | some pubHexBytes =>
      if pubHexBytes.length < 32 then
        none
      else if pubEmbedded ≠ pubHexBytes.take 32 then
        some (Except.error FromHexError.ConflictingPubKeys)
      else
        some (Except.ok (sec, some pubEmbedded))
    | none => some (Except.ok (sec, some pubEmbedded))
  else if secBytes.length = 32 then
    match publicBytes with
    | some pubHexBytes =>
      if pubHexBytes.length = 32 then
        some (Except.ok (secBytes, some (pubHexBytes.take 32)))
      else
        some (Except.error FromHexError.WrongKeyLength)
    | none => some (Except.ok (secBytes, none))
  else
    some (Except.error FromHexError.WrongKeyLength)

/-- `NodeId::strength` (and `TreeId::strength`): the number of leading one
bits of the stored 64-byte identifier. -/
def strength (nodeId : List Nat) : Option Nat :=
  leading_ones nodeId

/-- `NodeId::ADDR_BYTE`. -/
def ADDR_BYTE : Nat := 0xfe

/-- `NodeId::SNET_BYTE`. -/
def SNET_BYTE : Nat := 0x01

/-- `NodeId::IP_PREFIX`, the default routing prefix `200::/7`. -/
def IP_PREFIX : List Nat := [0x02]

/-- `keys.rs::NodeId::address_bytes`.  The argument `pfx` is the routing
prefix (called `prefix` in the source).  Fatal conditions, in source order:
the `assert!` on the prefix length; the `usize` underflow in
`bytes[prefix.len() - 1]` when the prefix is empty; a fatal inside
`strip_ones`; the out-of-range slice `remainder[0..(end - (prefix.len() + 1))]`
when the remainder is too short for `copy_from_slice`. -/
def address_bytes (nodeId : List Nat) (pfx : List Nat) (net : Bool) :
    Option (List Nat) :=
  if pfx.length ≤ (if net then 6 else 14) then
    let bytes0 := pfx ++ List.replicate (16 - pfx.length) 0
    if pfx.length = 0 then
      none
    else
      let i := pfx.length - 1
      let bytes1 := bytes0.set i
        (if net then (bytes0.getD i 0) ||| SNET_BYTE
         else (bytes0.getD i 0) &&& ADDR_BYTE)
      match strip_ones nodeId with
      | none => none
      | some (ones, remainder) =>
        let bytes2 := bytes1.set pfx.length (ones % 256)
        let stop := if net then 8 else 16
        if remainder.length < stop - (pfx.length + 1) then
          none
        else
          some (bytes2.take (pfx.length + 1)
            ++ remainder.take (stop - (pfx.length + 1))
            ++ bytes2.drop stop)
  else
    none

/-- `NodeId::address_with_prefix` as byte production (the conversion to
`std::net::Ipv6Addr` is external). -/
def address_with_prefix_bytes (nodeId : List Nat) (pfx : List Nat) :
    Option (List Nat) :=
  address_bytes nodeId pfx false

/-- `NodeId::subnet_with_prefix` as byte production. -/
def subnet_with_prefix_bytes (nodeId : List Nat) (pfx : List Nat) :
    Option (List Nat) :=
  address_bytes nodeId pfx true

/-- `NodeId::address`: the default-prefix address. -/
def address (nodeId : List Nat) : Option (List Nat) :=
  address_with_prefix_bytes nodeId IP_PREFIX

/-- `NodeId::subnet`: the default-prefix subnet. -/
def subnet (nodeId : List Nat) : Option (List Nat) :=
  subnet_with_prefix_bytes nodeId IP_PREFIX

/-- Modelled from the spec: the inversion step of section 4.3, flipping every
bit of every byte of a byte sequence.  No such array-level inversion exists
in the source; the definition is needed to state the spec claim about
`strength`. -/
def invertBytes (l : List Nat) : List Nat :=
  l.map (fun b => b ^^^ 255)

/-- The eight bits of a byte, most significant first (the spec reads byte
sequences as big-endian bitstrings). -/
def byteBits (b : Nat) : List Nat :=
  [b / 128 % 2, b / 64 % 2, b / 32 % 2, b / 16 % 2,
   b / 8 % 2, b / 4 % 2, b / 2 % 2, b % 2]

/-- The bitstring of a byte sequence, most significant bit of byte 0 first. -/
def bytesBits : List Nat → List Nat
  | [] => []
  | b :: rest => byteBits b ++ bytesBits rest

/-- Modelled from the spec (glossary, "leading-ones run"): the length of the
longest all-ones prefix of the bitstring of a byte sequence.  This is the
reference definition the code's `leading_ones` is compared against. -/
def leadingOnesSpec (l : List Nat) : Nat :=
  ((bytesBits l).takeWhile (fun b => b = 1)).length

/-- The 64-byte Node ID appearing in the crate's own test suite
(`NODE_ID_HEX` in `tests.rs`): it is asserted there to be the SHA-512 digest
of the test public encryption key, with strength 20. -/
def nodeIdBytes : List Nat :=
  [0xff, 0xff, 0xf2, 0x1b, 0xbd, 0xda, 0x03, 0x24,
   0x6e, 0xa9, 0xf8, 0x55, 0xbe, 0x6e, 0xee, 0xaf,
   0x1b, 0xaf, 0x80, 0x9d, 0xc1, 0x51, 0xe0, 0xf8,
   0x2f, 0xfc, 0xac, 0x1b, 0xe3, 0xce, 0xc5, 0xf4,
   0xce, 0x09, 0x53, 0xdd, 0xcc, 0xf8, 0xb3, 0x20,
   0x2b, 0xf2, 0x0e, 0xb9, 0x67, 0x79, 0x82, 0x29,
   0x92, 0x71, 0x0d, 0x20, 0x1e, 0x07, 0xcb, 0x57,
   0x21, 0xb6, 0x6e, 0x9d, 0x02, 0xf5, 0x47, 0x07]

/-- The 32-byte public encryption key from the crate's test suite
(`ENC_PUB_HEX` in `tests.rs`); `nodeIdBytes` is its SHA-512 digest per the
test assertions. -/
def encPubBytes : List Nat :=
  [0x55, 0x1e, 0x45, 0xe3, 0xe8, 0x71, 0xbf, 0x84,
   0x3b, 0xe6, 0x6a, 0x91, 0x88, 0xf7, 0xe2, 0x29,
   0xf1, 0x98, 0xe6, 0x85, 0xf1, 0x69, 0xee, 0x2d,
   0xfa, 0xce, 0x9d, 0xcd, 0x2e, 0x51, 0x86, 0x61]

/-- The golden address bytes of the crate's test suite (`ADDR` in
`tests.rs`). -/
def addrBytes : List Nat :=
  [0x02, 0x14, 0x43, 0x77, 0xbb, 0x40, 0x64, 0x8d,
   0xd5, 0x3f, 0x0a, 0xb7, 0xcd, 0xdd, 0xd5, 0xe3]

/-- The golden subnet bytes of the crate's test suite (`SNET` in
`tests.rs`). -/
def snetBytes : List Nat :=
  [0x03, 0x14, 0x43, 0x77, 0xbb, 0x40, 0x64, 0x8d,
   0x00, 0x00, 0x00, 0x00, 0x00, 0x00, 0x00, 0x00]

/-! ### Helper lemmas -/

/-- Sequential `Option` map preserves length when it succeeds. -/
theorem mapOption_length (f : Nat → Option Nat) :
    ∀ (l ys : List Nat), mapOption f l = some ys → ys.length = l.length := by
  intro l
  induction l with
  | nil =>
    intro ys h
    simp only [mapOption, Option.some.injEq] at h
    simp [← h]
  | cons a t ih =>
    intro ys h
    simp only [mapOption] at h
    cases hfa : f a with
    | none => simp [hfa] at h
    | some b =>
      cases hmt : mapOption f t with
      | none => simp [hfa, hmt] at h
      | some rs =>
        simp [hfa, hmt] at h
        subst h
        simp [ih rs hmt]

/-- `takeWhile` over an append stops inside the first part when that part
contains an element falsifying the predicate. -/
theorem takeWhile_append_of_exists_not (p : Nat → Bool) :
    ∀ (l₁ l₂ : List Nat), (∃ x ∈ l₁, p x = false) →
      (l₁ ++ l₂).takeWhile p = l₁.takeWhile p := by
  intro l₁
  induction l₁ with
  | nil => intro l₂ h; simp at h
  | cons a t ih =>
    intro l₂ h
    cases hpa : p a with
    | false => simp [List.takeWhile_cons, hpa]
    | true =>
      have hrest : ∃ x ∈ t, p x = false := by
        obtain ⟨x, hx, hpx⟩ := h
        cases hx with
        | head => rw [hpa] at hpx; exact absurd hpx (by simp)
        | tail _ hmem => exact ⟨x, hmem, hpx⟩
      simp [List.takeWhile_cons, hpa, ih l₂ hrest]

set_option maxRecDepth 4000 in
/-- Per-byte fact: the local leading-ones count is 8 exactly for the
all-ones byte. -/
theorem u8lz_eq_8_iff : ∀ b < 256, (u8LeadingZeros (b ^^^ INVERTER) = 8 ↔ b = 255) := by
  decide

set_option maxRecDepth 4000 in
/-- Per-byte fact: for a byte that is not all ones, the local leading-ones
count of the loop equals the length of the all-ones prefix of its bits. -/
theorem byteBits_count_of_ne : ∀ b < 256, b ≠ 255 →
    ((byteBits b).takeWhile (fun x => x = 1)).length = u8LeadingZeros (b ^^^ INVERTER) := by
  decide

set_option maxRecDepth 4000 in
/-- Per-byte fact: a byte that is not all ones has a zero bit. -/
theorem byteBits_has_zero_of_ne : ∀ b < 256, b ≠ 255 → ∃ x ∈ byteBits b, ¬ x = 1 := by
  decide

/-- Peeling an all-ones byte adds 8 to the reference leading-ones count. -/
theorem leadingOnesSpec_cons_255 (rest : List Nat) :
    leadingOnesSpec (255 :: rest) = 8 + leadingOnesSpec rest := by
  simp [leadingOnesSpec, bytesBits, byteBits, List.takeWhile_cons]
  omega

/-- A byte with a zero bit freezes the reference leading-ones count. -/
theorem leadingOnesSpec_cons_of_ne (b : Nat) (hb : b < 256) (hne : b ≠ 255)
    (rest : List Nat) :
    leadingOnesSpec (b :: rest) = u8LeadingZeros (b ^^^ INVERTER) := by
  have hex : ∃ x ∈ byteBits b, (fun x => decide (x = 1)) x = false := by
    obtain ⟨x, hx, hnx⟩ := byteBits_has_zero_of_ne b hb hne
    exact ⟨x, hx, by simp [hnx]⟩
  unfold leadingOnesSpec bytesBits
  rw [takeWhile_append_of_exists_not _ _ _ hex]
  exact byteBits_count_of_ne b hb hne

/-- The bitstring of a byte sequence has 8 bits per byte. -/
theorem bytesBits_length (l : List Nat) : (bytesBits l).length = 8 * l.length := by
  induction l with
  | nil => rfl
  | cons b t ih => simp [bytesBits, byteBits, ih]; omega

/-- The reference leading-ones count is bounded by the bit length. -/
theorem leadingOnesSpec_le (l : List Nat) : leadingOnesSpec l ≤ 8 * l.length := by
  calc leadingOnesSpec l ≤ (bytesBits l).length :=
        ((bytesBits l).takeWhile_sublist _).length_le
    _ = 8 * l.length := bytesBits_length l

/-- One-step unfolding of the scan loop. -/
theorem leadingOnesAux_succ (arr : List Nat) (fuel acc : Nat) :
    leadingOnesAux arr (fuel + 1) acc =
      if acc / 8 < 64 then
        match arr[acc / 8]? with
        | none => none
        | some currentByte =>
          if u8LeadingZeros (currentByte ^^^ INVERTER) = 8 then
            leadingOnesAux arr fuel (acc + u8LeadingZeros (currentByte ^^^ INVERTER))
          else
            some (acc + u8LeadingZeros (currentByte ^^^ INVERTER))
      else some acc := rfl

/-- One-step unfolding of the scan loop when the guard holds and the byte
access succeeds. -/
theorem leadingOnesAux_succ_some (arr : List Nat) (fuel acc b : Nat)
    (hlt : acc / 8 < 64) (h : arr[acc / 8]? = some b) :
    leadingOnesAux arr (fuel + 1) acc =
      if u8LeadingZeros (b ^^^ INVERTER) = 8 then
        leadingOnesAux arr fuel (acc + u8LeadingZeros (b ^^^ INVERTER))
      else
        some (acc + u8LeadingZeros (b ^^^ INVERTER)) := by
  rw [leadingOnesAux_succ, if_pos hlt, h]

/-- Loop invariant of `leading_ones`: starting after `k` all-ones bytes with
count `8 * k` and fuel `n + 1` (where `k + n = 64`), the loop returns the
reference leading-ones count of the whole input.  In particular the fuel is
never exhausted and no out-of-bounds access happens. -/
theorem leadingOnesAux_eq_spec (arr : List Nat) (hlen : arr.length = 64)
    (hbytes : ∀ b ∈ arr, b < 256) :
    ∀ (n k : Nat), k + n = 64 → (∀ j, j < k → arr[j]? = some 255) →
      leadingOnesAux arr (n + 1) (8 * k) =
        some (8 * k + leadingOnesSpec (arr.drop k)) := by
  intro n
  induction n with
  | zero =>
    intro k hk h255
    have hk64 : k = 64 := by omega
    subst hk64
    rw [leadingOnesAux_succ, if_neg (by omega)]
    rw [show arr.drop 64 = [] from hlen ▸ arr.drop_length]
    simp [leadingOnesSpec, bytesBits]
  | succ m ih =>
    intro k hk h255
    have hklt : k < 64 := by omega
    have hkarr : k < arr.length := by omega
    have hget : arr[k]? = some arr[k] := List.getElem?_eq_getElem hkarr
    have hb : arr[k] < 256 := hbytes _ (arr.getElem_mem hkarr)
    have hdrop : arr.drop k = arr[k] :: arr.drop (k + 1) :=
      List.drop_eq_getElem_cons hkarr
    rw [leadingOnesAux_succ_some arr (m + 1) (8 * k) arr[k] (by omega)
      (by rw [show 8 * k / 8 = k by omega]; exact hget)]
    by_cases h255b : arr[k] = 255
    · rw [if_pos ((u8lz_eq_8_iff _ hb).mpr h255b),
        (u8lz_eq_8_iff _ hb).mpr h255b,
        show 8 * k + 8 = 8 * (k + 1) by omega,
        ih (k + 1) (by omega) (by
          intro j hj
          rcases Nat.lt_succ_iff_lt_or_eq.mp hj with hlt | heq
          · exact h255 j hlt
          · subst heq; rw [hget, h255b]),
        hdrop, h255b, leadingOnesSpec_cons_255]
      simp only [Option.some.injEq]
      omega
    · rw [if_neg (fun hcon => h255b ((u8lz_eq_8_iff _ hb).mp hcon)),
        hdrop, leadingOnesSpec_cons_of_ne _ hb h255b]

/-- The code's `leading_ones` computes the reference leading-ones count on
every 64-byte input. -/
theorem leading_ones_eq_spec (arr : List Nat) (hlen : arr.length = 64)
    (hbytes : ∀ b ∈ arr, b < 256) :
    leading_ones arr = some (leadingOnesSpec arr) := by
  have h := leadingOnesAux_eq_spec arr hlen hbytes 64 0 (by omega)
    (by intro j hj; omega)
  simpa [leading_ones] using h

/-- Anatomy of a successful `strip_ones` run: the leading-ones count is the
one computed by `leading_ones`, the retained slice had at least 2 bytes, and
the remainder is one byte shorter than that slice. -/
theorem strip_ones_some_shape (arr : List Nat) (ones : Nat) (rem : List Nat)
    (h : strip_ones arr = some (ones, rem)) :
    leading_ones arr = some ones ∧
    2 ≤ arr.length - ones / 8 ∧
    rem.length = arr.length - ones / 8 - 1 := by
  unfold strip_ones at h
  cases hl : leading_ones arr with
  | none => rw [hl] at h; simp at h
  | some o =>
    rw [hl] at h
    simp only [Option.bind_eq_bind, Option.some_bind] at h
    by_cases hlt : (arr.drop (o / 8)).length < 2
    · rw [if_pos hlt] at h; simp at h
    · rw [if_neg hlt] at h
      rcases Option.bind_eq_some.mp h with ⟨vec, hm, h2⟩
      have hveclen : vec.length = (arr.drop (o / 8)).length - 2 := by
        have := mapOption_length _ _ _ hm
        simpa using this
      cases hlast : (arr.drop (o / 8))[(arr.drop (o / 8)).length - 1]? with
      | none => rw [hlast] at h2; simp at h2
      | some last =>
        rw [hlast] at h2
        rcases Option.bind_eq_some.mp h2 with ⟨ls, hshl, h3⟩
        simp only [Option.pure_def, Option.some.injEq, Prod.mk.injEq] at h3
        obtain ⟨ho, hr⟩ := h3
        have hld := List.length_drop (o / 8) arr
        refine ⟨by rw [← ho], ?_, ?_⟩
        · rw [← ho]
          omega
        · rw [← ho, ← hr]
          simp only [List.length_append, List.length_cons, List.length_nil, hveclen]
          omega

/-- With the default prefix and a successful, long-enough `strip_ones`, the
address bytes are the prefix byte, the count byte, and 14 remainder bytes. -/
theorem address_bytes_default_addr (arr : List Nat) (ones : Nat) (rem : List Nat)
    (h : strip_ones arr = some (ones, rem)) (hrem : 14 ≤ rem.length) :
    address_bytes arr [2] false = some ([2, ones % 256] ++ rem.take 14) := by
  have hrem2 : ¬ rem.length < 14 := by omega
  simp [address_bytes, h, hrem2]
  decide

/-- With the default prefix and a successful, long-enough `strip_ones`, the
subnet bytes are the marked prefix byte, the count byte, 6 remainder bytes,
and 8 zero bytes. -/
theorem address_bytes_default_snet (arr : List Nat) (ones : Nat) (rem : List Nat)
    (h : strip_ones arr = some (ones, rem)) (hrem : 6 ≤ rem.length) :
    address_bytes arr [2] true =
      some ([3, ones % 256] ++ rem.take 6 ++ List.replicate 8 0) := by
  have hrem2 : ¬ rem.length < 6 := by omega
  simp [address_bytes, h, hrem2]
  decide

/-- A successful default-prefix address run presupposes a successful
`strip_ones` with at least 14 remainder bytes. -/
theorem address_default_inv (arr : List Nat) (a : List Nat)
    (h : address_bytes arr [2] false = some a) :
    ∃ ones rem, strip_ones arr = some (ones, rem) ∧ 14 ≤ rem.length := by
  unfold address_bytes at h
  cases hs : strip_ones arr with
  | none => rw [hs] at h; simp at h
  | some p =>
    obtain ⟨o, r⟩ := p
    rw [hs] at h
    by_cases hr : r.length < 14
    · simp [hr] at h
    · exact ⟨o, r, rfl, by omega⟩

/-- Sanity check of the embedding against the crate's own test suite: the
modelled pipeline reproduces the strength, address and subnet golden values
of `tests.rs` on the test Node ID. -/
theorem embedding_matches_crate_tests :
    strength nodeIdBytes = some 20 ∧
    address nodeIdBytes = some addrBytes ∧
    subnet nodeIdBytes = some snetBytes := by
  refine ⟨by decide, by decide, by decide⟩

/-! ### Claim theorems -/

/-- Claim C1, counterexample: on the all-zero 64-byte input `strip_ones`
returns a 63-byte remainder, not the 64 bytes demanded by the claimed law
`len(remainder) = len(input) - (leading_ones(input) + 1) / 8`. -/
theorem strip_ones_length_law_fails :
    strip_ones (List.replicate 64 0) = some (0, List.replicate 63 0) ∧
    (List.replicate 63 0 : List Nat).length ≠
      (List.replicate 64 0 : List Nat).length - (0 + 1) / 8 :=
  ⟨by decide, by decide⟩

/-- Claim C1, amended: whenever `strip_ones` returns, the remainder has
length `len(input) - leading_ones(input) / 8 - 1`, one byte less than the
byte-level slice `input[leading_ones(input) / 8 ..]` actually taken by the
code. -/
theorem strip_ones_remainder_length (arr : List Nat) (ones : Nat) (rem : List Nat)
    (h : strip_ones arr = some (ones, rem)) :
    rem.length = arr.length - ones / 8 - 1 :=
  (strip_ones_some_shape arr ones rem h).2.2

/-- Witness for the amended claim C1 at the all-zero input. -/
theorem strip_ones_remainder_length_witness :
    strip_ones (List.replicate 64 0) = some (0, List.replicate 63 0) ∧
    (List.replicate 63 0 : List Nat).length =
      (List.replicate 64 0 : List Nat).length - 0 / 8 - 1 :=
  ⟨by decide,
    strip_ones_remainder_length (List.replicate 64 0) 0 (List.replicate 63 0)
      (by decide)⟩

/-- Claim C2, counterexample: the first known vector fails on the code,
which returns a one-byte remainder `[0x00]` instead of
`[0b00100000, 0b00000000]`. -/
theorem strip_ones_known_vector_fails :
    strip_ones [16, 0] ≠ some (0, [32, 0]) := by decide

/-- Claim C2, amended: on the three claimed vectors the code actually
returns `(0, [0x00])` and `(1, [0x00])` (the loop bound `len - 2` skips the
final combine step and the tail byte is `slice[len - 1] << shift`), and on
`[0xff, 0x10]` it hits the `slice.len() - 2` underflow fatal. -/
theorem strip_ones_vectors_actual :
    strip_ones [16, 0] = some (0, [0]) ∧
    strip_ones [128, 0] = some (1, [0]) ∧
    strip_ones [255, 16] = none :=
  ⟨by decide, by decide, by decide⟩

/-- Claim C3, counterexample: on the crate's own test identity (Node ID
`nodeIdBytes`, the SHA-512 digest of public key `encPubBytes` per
`tests.rs`), `strength` is 20, while the leading-ones count of the
bit-inverted public key is 1. -/
theorem strength_inversion_claim_fails :
    strength nodeIdBytes = some 20 ∧
    leadingOnesSpec (invertBytes encPubBytes) = 1 ∧
    (20 : Nat) ≠ 1 :=
  ⟨by decide, by decide, by decide⟩

/-- Claim C3, amended: `strength` equals the number of leading one bits of
the 64-byte Node ID digest itself (no inversion, and of the digest rather
than the public key), and that count is between 0 and 512. -/
theorem strength_digest_leading_ones (arr : List Nat) (hlen : arr.length = 64)
    (hbytes : ∀ b ∈ arr, b < 256) :
    strength arr = some (leadingOnesSpec arr) ∧ leadingOnesSpec arr ≤ 512 := by
  refine ⟨leading_ones_eq_spec arr hlen hbytes, ?_⟩
  have h := leadingOnesSpec_le arr
  omega

/-- Witness for the amended claim C3 at the test-suite Node ID. -/
theorem strength_digest_leading_ones_witness :
    strength nodeIdBytes = some (leadingOnesSpec nodeIdBytes) ∧
    leadingOnesSpec nodeIdBytes ≤ 512 :=
  strength_digest_leading_ones nodeIdBytes (by decide) (by decide)

/-- Claim C4: on every 64-byte input the scan returns a count (its guard
`acc / 8 < 64` matches the array length, so no out-of-bounds access and no
fatal condition occurs), and on the all-ones input it stops exactly at the
end and returns the total bit count 512. -/
theorem leading_ones_no_out_of_bounds (arr : List Nat) (hlen : arr.length = 64)
    (hbytes : ∀ b ∈ arr, b < 256) :
    (∃ c, leading_ones arr = some c) ∧
    leading_ones (List.replicate 64 255) = some 512 :=
  ⟨⟨leadingOnesSpec arr, leading_ones_eq_spec arr hlen hbytes⟩, by decide⟩

/-- Witness for claim C4 at the all-ones input. -/
theorem leading_ones_no_out_of_bounds_witness :
    (List.replicate 64 255 : List Nat).length = 64 ∧
    ((∃ c, leading_ones (List.replicate 64 255) = some c) ∧
      leading_ones (List.replicate 64 255) = some 512) :=
  ⟨by decide,
    leading_ones_no_out_of_bounds (List.replicate 64 255) (by decide) (by decide)⟩

/-- Claim C5 (code bug): on the input `0xfe` followed by 63 zero bytes the
leading-ones count is 7, so `(7 + 1) % 8 = 0` is the spec's byte-aligned
case; the code computes `shift = 7 % 8 + 1 = 8` and evaluates `u8 << 8`,
an arithmetic overflow (fatal), instead of returning `input[1..]`
unchanged. -/
theorem strip_ones_aligned_fatal :
    leading_ones (254 :: List.replicate 63 0) = some 7 ∧
    (7 + 1) % 8 = 0 ∧
    strip_ones (254 :: List.replicate 63 0) = none :=
  ⟨by decide, by decide, by decide⟩

/-- Claim C6: whenever the default-prefix address and subnet are produced,
the address is 16 bytes starting with `0x02` (low bit clear) and the subnet
is 16 bytes starting with `0x03` with bytes 8 through 15 zero. -/
theorem address_subnet_structure (nid a s : List Nat)
    (ha : address nid = some a) (hs : subnet nid = some s) :
    (a.length = 16 ∧ a[0]? = some 2 ∧ (2 : Nat) % 2 = 0) ∧
    (s.length = 16 ∧ s[0]? = some 3 ∧ ∀ i, 8 ≤ i → i < 16 → s[i]? = some 0) := by
  obtain ⟨ones, rem, hstrip, hrem⟩ := address_default_inv nid a ha
  have ha2 : address_bytes nid [2] false = some a := ha
  have hs2 : address_bytes nid [2] true = some s := hs
  rw [address_bytes_default_addr nid ones rem hstrip hrem] at ha2
  rw [address_bytes_default_snet nid ones rem hstrip (by omega)] at hs2
  injection ha2 with hA
  injection hs2 with hS
  subst hA
  subst hS
  refine ⟨⟨?_, rfl, rfl⟩, ⟨?_, rfl, ?_⟩⟩
  · simp [List.length_append, List.length_take]
    omega
  · simp [List.length_append, List.length_take]
    omega
  · intro i h8 h16
    have hfl : (([3, ones % 256] ++ rem.take 6) : List Nat).length = 8 := by
      simp [List.length_append, List.length_take]
      omega
    rw [List.getElem?_append_right (by omega), hfl]
    exact List.getElem?_replicate_of_lt (by omega)

/-- Witness for claim C6 at the test-suite Node ID and its golden address
and subnet bytes. -/
theorem address_subnet_structure_witness :
    (addrBytes.length = 16 ∧ addrBytes[0]? = some 2 ∧ (2 : Nat) % 2 = 0) ∧
    (snetBytes.length = 16 ∧ snetBytes[0]? = some 3 ∧
      ∀ i, 8 ≤ i → i < 16 → snetBytes[i]? = some 0) :=
  address_subnet_structure nodeIdBytes addrBytes snetBytes (by decide) (by decide)

/-- Claim C7 (code bug): with a 64-byte secret decode and a supplied public
decode of fewer than 32 bytes, the code slices `[0..32]` out of range, a
fatal condition, instead of returning the `WrongKeyLength` error the
documentation promises. -/
theorem hex_pair_short_public_fatal :
    (List.replicate 64 0 : List Nat).length = 64 ∧
    ([0] : List Nat).length < 32 ∧
    hex_pair_to_bytes (List.replicate 64 0) (some [0]) = none :=
  ⟨by decide, by decide, rfl⟩

/-- Claim C8: with a 64-byte secret decode and a 32-byte public decode, the
result is the `ConflictingPubKeys` error exactly when the supplied public
key differs from the embedded public half, and on equality the call
succeeds with the embedded public half. -/
theorem hex_pair_conflict_detection (sec p : List Nat)
    (hsec : sec.length = 64) (hp : p.length = 32) :
    (hex_pair_to_bytes sec (some p) =
        some (Except.error FromHexError.ConflictingPubKeys) ↔
      sec.drop 32 ≠ p) ∧
    (sec.drop 32 = p →
      hex_pair_to_bytes sec (some p) =
        some (Except.ok (sec.take 32, some (sec.drop 32)))) := by
  have htake : p.take 32 = p := by rw [← hp]; exact p.take_length
  by_cases heq : sec.drop 32 = p
  · simp [hex_pair_to_bytes, hsec, hp, htake, heq]
  · simp [hex_pair_to_bytes, hsec, hp, htake, heq]

/-- Witness for claim C8 at a matching concrete pair. -/
theorem hex_pair_conflict_detection_witness :
    ((hex_pair_to_bytes (List.replicate 64 7) (some (List.replicate 32 7)) =
        some (Except.error FromHexError.ConflictingPubKeys) ↔
      (List.replicate 64 7 : List Nat).drop 32 ≠ List.replicate 32 7) ∧
    ((List.replicate 64 7 : List Nat).drop 32 = List.replicate 32 7 →
      hex_pair_to_bytes (List.replicate 64 7) (some (List.replicate 32 7)) =
        some (Except.ok ((List.replicate 64 7 : List Nat).take 32,
          some ((List.replicate 64 7 : List Nat).drop 32))))) :=
  hex_pair_conflict_detection (List.replicate 64 7) (List.replicate 32 7)
    (by decide) (by decide)

/-- Claim C9: on any 64-byte input whose leading-ones count is at least 504
the retained slice has fewer than 2 bytes, so the `slice.len() - 2` bound
underflows and `strip_ones` hits a fatal condition instead of returning a
pair. -/
theorem strip_ones_band_504_fatal (arr : List Nat) (c : Nat)
    (hlen : arr.length = 64) (hones : leading_ones arr = some c)
    (hc : 504 ≤ c) :
    strip_ones arr = none := by
  have hcond : arr.length - c / 8 < 2 := by omega
  simp [strip_ones, hones, hcond]

/-- Witness for claim C9 at 63 all-ones bytes followed by a zero byte. -/
theorem strip_ones_band_504_fatal_witness :
    (List.replicate 63 255 ++ [0] : List Nat).length = 64 ∧
    leading_ones (List.replicate 63 255 ++ [0]) = some 504 ∧
    strip_ones (List.replicate 63 255 ++ [0]) = none :=
  ⟨by decide, by decide,
    strip_ones_band_504_fatal (List.replicate 63 255 ++ [0]) 504
      (by decide) (by decide) (by omega)⟩

/-- Claim C10: with an empty routing prefix (which passes the length
assertion) the patch of the marker bit reads `bytes[prefix.len() - 1]`,
a `usize` underflow, so both the address and the subnet computation hit a
fatal condition for every Node ID. -/
theorem address_bytes_empty_marker_fatal (nid : List Nat) (net : Bool) :
    address_bytes nid [] net = none := by
  cases net <;> rfl

end YggdrasilKeys
